import Mathlib

set_option maxRecDepth 100000

/- Verification of the multi-pass document-transformation pipeline:
   the schema projection (Type Context), the selection-set data model,
   the Abstract-Type Disambiguation Pass (the typename transform), the
   Pass Runner with its diagnostic policy, and the document printer.
   The pass implementation is reconstructed from the written design
   document, and its behaviour is checked against the recorded test
   oracle (the expected printed documents of the typename test suite). -/

/-- Modelled from the spec: the kind of a named schema type, as exposed by
the Type Context (object, interface, union, scalar, enum, input). The
schema-loading code is not part of the analysed sources. -/
inductive TypeKind where
  | object
  | interface
  | union
  | scalar
  | enum
  | inputObject
deriving DecidableEq, Repr

/-- Modelled from the spec: the read-only schema projection used by passes.
Per named type it exposes the kind, the field-to-return-type map, and the
member or implementing type names. Built once per compile invocation. -/
structure Schema where
  kindOf : String → Option TypeKind
  fieldType : String → String → Option String
  members : String → List String

mutual
/-- Modelled from the spec: one Selection node. A Selection is a Field with
name, arguments, optional alias and optional nested selection set, a
FragmentSpread naming a fragment, or an InlineFragment with a type
condition and a nested selection set. -/
inductive Selection where
  | field (al : Option String) (name : String) (args : List (String × String))
      (sub : SubSelection)
  | fragmentSpread (name : String)
  | inlineFragment (typeCondition : String) (sub : SelectionSet)
deriving DecidableEq, Repr

/-- Modelled from the spec: the optional nested selection set of a Field
(leaf fields have none). -/
inductive SubSelection where
  | none
  | some (ss : SelectionSet)
deriving DecidableEq, Repr

/-- Modelled from the spec: an ordered sequence of Selection nodes, owned
by its parent node in the AST tree. -/
inductive SelectionSet where
  | nil
  | cons (head : Selection) (tail : SelectionSet)
deriving DecidableEq, Repr
end

/-- The list of direct children of a selection set, used to state ordering
and frame properties. -/
def toList : SelectionSet → List Selection
  | .nil => []
  | .cons a rest => a :: toList rest

/-- Modelled from the spec: whether a named type is polymorphic, that is,
its kind in the Type Context is interface or union. -/
def isAbstract (s : Schema) (t : String) : Bool :=
  match s.kindOf t with
  | Option.some TypeKind.interface => true
  | Option.some TypeKind.union => true
  | _ => false

/-- Modelled from the spec: the step-3 presence scan of the disambiguation
pass. Scans the direct children of a selection set for a Field selection
whose name is the discriminator name. -/
def hasTypename : SelectionSet → Bool
  | .nil => false
  | .cons (.field _ n _ _) rest => n == "__typename" || hasTypename rest
  | .cons _ rest => hasTypename rest

/-- Modelled from the spec: the synthetic discriminator Field selection the
pass appends - no arguments, no alias, no nested selection set. -/
def typenameField : Selection :=
  .field Option.none "__typename" [] SubSelection.none

/-- Appends the synthetic discriminator field after every existing child of
a selection set, in document order. -/
def appendTypename : SelectionSet → SelectionSet
  | .nil => .cons typenameField .nil
  | .cons a rest => .cons a (appendTypename rest)

/-- Modelled from the spec: step 3 of the disambiguation pass at one
boundary. If the resolved parent type is interface or union and the
discriminator is absent from the direct children, append it at the end;
otherwise leave the selection set unchanged. -/
def injectIf (s : Schema) (t : String) (ss : SelectionSet) : SelectionSet :=
  if isAbstract s t && !hasTypename ss then appendTypename ss else ss

/-- Modelled from the spec: field-type resolution during the walk. An
unrecognized field name does not abort the walk; it continues using the
last-known type context. -/
def resolveFieldType (s : Schema) (pt : String) (n : String) : String :=
  (s.fieldType pt n).getD pt

mutual
/-- Modelled from the spec: the recursive walk of the Abstract-Type
Disambiguation Pass over one Selection, carrying the resolved parent type.
The implementation file of this transform is not among the analysed
sources; only its test oracle is. Nested selection sets of fields and of
inline fragments are rewritten with the disambiguation rule applied at
each boundary, under the type resolved for that boundary. -/
def transformSel (s : Schema) (pt : String) : Selection → Selection
  | .field a n args .none => .field a n args .none
  | .field a n args (.some sub) =>
      .field a n args
        (.some (injectIf s (resolveFieldType s pt n)
          (transformSet s (resolveFieldType s pt n) sub)))
  | .fragmentSpread n => .fragmentSpread n
  | .inlineFragment tc sub =>
      .inlineFragment tc (injectIf s tc (transformSet s tc sub))

/-- Modelled from the spec: the element-wise walk over the children of one
selection set, in document order. -/
def transformSet (s : Schema) (pt : String) : SelectionSet → SelectionSet
  | .nil => .nil
  | .cons a rest => .cons (transformSel s pt a) (transformSet s pt rest)
end

/-- The full action of the disambiguation pass on one selection-set
boundary: rewrite the children recursively, then apply the injection rule
at this boundary. -/
def addTypenameSet (s : Schema) (t : String) (ss : SelectionSet) : SelectionSet :=
  injectIf s t (transformSet s t ss)

/-- Modelled from the spec: the operation kind of a collected document. -/
inductive DocKind where
  | query
  | mutation
  | subscription
  | fragment
deriving DecidableEq, Repr

/-- Modelled from the spec: a CollectedDocument of the Document Store -
unique name, operation kind, root type (the root operation type, or the
declared type condition of a fragment definition), the root selection set
of its AST, and the originating file identity. -/
structure CollectedDocument where
  name : String
  kind : DocKind
  rootType : String
  selections : SelectionSet
  sourceFile : String
deriving DecidableEq, Repr

/-- The disambiguation pass applied to one document: its root selection
set is walked under the root type; name, kind, root type and source file
are untouched. -/
def transformDoc (s : Schema) (d : CollectedDocument) : CollectedDocument :=
  { d with selections := addTypenameSet s d.rootType d.selections }

/-- Modelled from the spec: diagnostic severity - advisory or fatal. -/
inductive Severity where
  | advisory
  | fatal
deriving DecidableEq, Repr

/-- Modelled from the spec: a Diagnostic with severity, message, document
name and location hint. -/
structure Diagnostic where
  severity : Severity
  message : String
  documentName : String
  locationHint : String
deriving DecidableEq, Repr

/-- Whether a diagnostic has fatal severity. -/
def Diagnostic.isFatal (d : Diagnostic) : Bool :=
  d.severity == Severity.fatal

/-- Modelled from the spec: a pass is a function from the Type Context and
the Document Store to the updated store plus a diagnostics list. -/
abbrev Pass : Type :=
  Schema → List CollectedDocument → List CollectedDocument × List Diagnostic

/-- Modelled from the spec: the Abstract-Type Disambiguation Pass over the
whole Document Store. It mutates selection sets of every document and
reports no fatal condition. -/
def typenamePass : Pass :=
  fun s docs => (docs.map (transformDoc s), [])

/-- Modelled from the spec: the Pass Runner. Passes execute strictly in
list order; after each pass its diagnostics are appended to the aggregate;
the first fatal diagnostic makes the runner return the aggregate at once
without invoking subsequent passes. -/
def runPasses (s : Schema) : List Pass → List CollectedDocument →
    List CollectedDocument × List Diagnostic
  | [], docs => (docs, [])
  | p :: rest, docs =>
      let res := p s docs
      if res.2.any Diagnostic.isFatal then res
      else
        let res2 := runPasses s rest res.1
        (res2.1, res.2 ++ res2.2)

/-- The compile-time-constant pass list of the analysed pipeline: the one
fully specified pass. -/
def pipelinePasses : List Pass := [typenamePass]

/-- Modelled from the spec: the pipeline entry point - run the constant
pass list over the Document Store under one Type Context. -/
def runPipeline (s : Schema) (docs : List CollectedDocument) :
    List CollectedDocument × List Diagnostic :=
  runPasses s pipelinePasses docs

/-- The store reached by running every pass of a list in order, ignoring
the halting policy. Used to characterize runs without fatal diagnostics. -/
def applyAll (s : Schema) : List Pass → List CollectedDocument →
    List CollectedDocument
  | [], docs => docs
  | p :: rest, docs => applyAll s rest (p s docs).1

/-- The concatenation, in pass order, of the diagnostics of every pass of
a list, each pass observing the mutations of the earlier ones. -/
def collectAll (s : Schema) : List Pass → List CollectedDocument →
    List Diagnostic
  | [], _ => []
  | p :: rest, docs => (p s docs).2 ++ collectAll s rest (p s docs).1

/-- Prints an argument list in the document syntax. -/
def printArgs : List (String × String) → String
  | [] => ""
  | args =>
      "(" ++ String.intercalate ", " (args.map fun kv => kv.1 ++ ": " ++ kv.2) ++ ")"

/-- Prints the optional alias of a field selection. -/
def aliasPart : Option String → String
  | Option.none => ""
  | Option.some a => a ++ ": "

mutual
/-- Modelled from the spec: the document printer for one selection, at a
given indentation - producing the standard printed query-language text
used by the test oracle. The printing code itself is outside the analysed
sources. -/
def printSel (ind : String) : Selection → String
  | .field a n args .none => ind ++ aliasPart a ++ n ++ printArgs args ++ "\n"
  | .field a n args (.some sub) =>
      ind ++ aliasPart a ++ n ++ printArgs args ++ " \x7b\n"
        ++ printSet (ind ++ "  ") sub ++ ind ++ "\x7d\n"
  | .fragmentSpread n => ind ++ "..." ++ n ++ "\n"
  | .inlineFragment tc sub =>
      ind ++ "... on " ++ tc ++ " \x7b\n"
        ++ printSet (ind ++ "  ") sub ++ ind ++ "\x7d\n"

/-- Prints the children of a selection set in document order. -/
def printSet (ind : String) : SelectionSet → String
  | .nil => ""
  | .cons a rest => printSel ind a ++ printSet ind rest
end

/-- The keyword introducing a printed document of a given kind. -/
def kindKeyword : DocKind → String
  | .query => "query"
  | .mutation => "mutation"
  | .subscription => "subscription"
  | .fragment => "fragment"

/-- Prints a whole collected document. -/
def printDoc (d : CollectedDocument) : String :=
  match d.kind with
  | .fragment =>
      "fragment " ++ d.name ++ " on " ++ d.rootType ++ " \x7b\n"
        ++ printSet "  " d.selections ++ "\x7d\n"
  | k =>
      kindKeyword k ++ " " ++ d.name ++ " \x7b\n"
        ++ printSet "  " d.selections ++ "\x7d\n"

/-- Prints every document of a store, concatenated. -/
def printStore (docs : List CollectedDocument) : String :=
  String.join (docs.map printDoc)

/-- Leaf-only selection sets: every child is a field without a nested
selection set. -/
def leafOnly : SelectionSet → Bool
  | .nil => true
  | .cons (.field _ _ _ .none) rest => leafOnly rest
  | .cons _ _ => false

/-- Whether a selection set directly contains an inline fragment with a
type condition (every inline fragment of this model carries one). -/
def hasTypedInline : SelectionSet → Bool
  | .nil => false
  | .cons (.inlineFragment _ _) _ => true
  | .cons _ rest => hasTypedInline rest

mutual
/-- The depth-independence checker over one selection: at every nested
boundary whose resolved type is interface or union and whose selection set
contains a typed inline fragment, the discriminator must be among the
direct children. -/
def discOkSel (s : Schema) (pt : String) : Selection → Bool
  | .field _ _ _ .none => true
  | .field _ n _ (.some sub) =>
      (!(isAbstract s (resolveFieldType s pt n) && hasTypedInline sub)
          || hasTypename sub)
        && discOkSels s (resolveFieldType s pt n) sub
  | .fragmentSpread _ => true
  | .inlineFragment tc sub =>
      (!(isAbstract s tc && hasTypedInline sub) || hasTypename sub)
        && discOkSels s tc sub

/-- The depth-independence checker over the children of a selection set. -/
def discOkSels (s : Schema) (pt : String) : SelectionSet → Bool
  | .nil => true
  | .cons a rest => discOkSel s pt a && discOkSels s pt rest
end

/-- The depth-independence checker at a boundary: the boundary condition
for this selection set under its resolved type, together with the checker
on everything below it. -/
def discOkSet (s : Schema) (t : String) (ss : SelectionSet) : Bool :=
  (!(isAbstract s t && hasTypedInline ss) || hasTypename ss)
    && discOkSels s t ss

/-- The schema with the kinds interface and union interchanged on every
type, all field types and memberships untouched. Used to state that the
pass cannot distinguish the two polymorphic kinds. -/
def swapIU (s : Schema) : Schema :=
  { s with kindOf := fun t =>
      match s.kindOf t with
      | Option.some TypeKind.interface => Option.some TypeKind.union
      | Option.some TypeKind.union => Option.some TypeKind.interface
      | k => k }

/-- Modelled from the spec: the test schema of the typename test oracle -
a Query root with an interface-typed field friends, an object-typed field
users whose User type has an interface-typed field friendsInterface, and a
union-typed field entities; Cat and Ghost are implementing object types.
The schema fixture itself is outside the analysed sources. -/
def testSchema : Schema where
  kindOf := fun t =>
    if t = "Query" then Option.some TypeKind.object
    else if t = "User" then Option.some TypeKind.object
    else if t = "Cat" then Option.some TypeKind.object
    else if t = "Ghost" then Option.some TypeKind.object
    else if t = "Friend" then Option.some TypeKind.interface
    else if t = "Entity" then Option.some TypeKind.union
    else if t = "String" then Option.some TypeKind.scalar
    else if t = "ID" then Option.some TypeKind.scalar
    else Option.none
  fieldType := fun t f =>
    if t = "Query" && f = "friends" then Option.some "Friend"
    else if t = "Query" && f = "users" then Option.some "User"
    else if t = "Query" && f = "entities" then Option.some "Entity"
    else if t = "User" && f = "friendsInterface" then Option.some "Friend"
    else if t = "Cat" && f = "id" then Option.some "ID"
    else if t = "Ghost" && f = "name" then Option.some "String"
    else if t = "Ghost" && f = "aka" then Option.some "String"
    else Option.none
  members := fun t =>
    if t = "Friend" then ["Cat", "Ghost"]
    else if t = "Entity" then ["User", "Cat", "Ghost"]
    else []

/-- The inline fragment on Cat selecting id, shared by the test documents. -/
def catFragment : Selection :=
  .inlineFragment "Cat"
    (.cons (.field Option.none "id" [] SubSelection.none) .nil)

/-- The inline fragment on Ghost selecting name. -/
def ghostFragment : Selection :=
  .inlineFragment "Ghost"
    (.cons (.field Option.none "name" [] SubSelection.none) .nil)

/-- The first test document: a query selecting the interface field friends
with inline fragments on Cat and on Ghost and no discriminator. -/
def friendsDoc : CollectedDocument where
  name := "Friends"
  kind := DocKind.query
  rootType := "Query"
  selections :=
    .cons (.field Option.none "friends" []
      (.some (.cons catFragment (.cons ghostFragment .nil)))) .nil
  sourceFile := "Friends.graphql"

/-- The second test document: the interface field friendsInterface nested
inside the concrete object field users. -/
def usersDoc : CollectedDocument where
  name := "Friends"
  kind := DocKind.query
  rootType := "Query"
  selections :=
    .cons (.field Option.none "users" [("stringValue", "\"hello\"")]
      (.some (.cons (.field Option.none "friendsInterface" []
        (.some (.cons catFragment
          (.cons (.inlineFragment "Ghost"
            (.cons (.field Option.none "name" [] SubSelection.none)
              (.cons (.field Option.none "aka" [] SubSelection.none) .nil)))
            .nil)))) .nil))) .nil
  sourceFile := "Friends.graphql"

/-- The third test document: a query selecting the union field entities
with inline fragments on Cat and on Ghost. -/
def entitiesDoc : CollectedDocument where
  name := "Friends"
  kind := DocKind.query
  rootType := "Query"
  selections :=
    .cons (.field Option.none "entities" []
      (.some (.cons catFragment (.cons ghostFragment .nil)))) .nil
  sourceFile := "Friends.graphql"

/-- A document that already selects the discriminator at its polymorphic
boundary: the friends selection set carries a trailing discriminator. -/
def friendsDocWithTypename : CollectedDocument where
  name := "Friends"
  kind := DocKind.query
  rootType := "Query"
  selections :=
    .cons (.field Option.none "friends" []
      (.some (.cons catFragment (.cons ghostFragment
        (.cons typenameField .nil))))) .nil
  sourceFile := "Friends.graphql"

/-- The recorded expected print of the first test document after the
pipeline. -/
def friendsExpected : String :=
  "query Friends \x7b\n  friends \x7b\n    ... on Cat \x7b\n      id\n    \x7d\n    ... on Ghost \x7b\n      name\n    \x7d\n    __typename\n  \x7d\n\x7d\n"

/-- The recorded expected print of the second test document after the
pipeline. -/
def usersExpected : String :=
  "query Friends \x7b\n  users(stringValue: \"hello\") \x7b\n    friendsInterface \x7b\n      ... on Cat \x7b\n        id\n      \x7d\n      ... on Ghost \x7b\n        name\n        aka\n      \x7d\n      __typename\n    \x7d\n  \x7d\n\x7d\n"

/-- The recorded expected print of the third test document after the
pipeline. -/
def entitiesExpected : String :=
  "query Friends \x7b\n  entities \x7b\n    ... on Cat \x7b\n      id\n    \x7d\n    ... on Ghost \x7b\n      name\n    \x7d\n    __typename\n  \x7d\n\x7d\n"

example : printDoc (transformDoc testSchema friendsDoc) = friendsExpected := by decide
example : printDoc (transformDoc testSchema usersDoc) = usersExpected := by decide
example : printDoc (transformDoc testSchema entitiesDoc) = entitiesExpected := by decide
example : transformDoc testSchema friendsDocWithTypename = friendsDocWithTypename := by decide

theorem transformSel_field_some (s : Schema) (pt : String) (a : Option String)
    (n : String) (args : List (String × String)) (sub : SelectionSet) :
    transformSel s pt (.field a n args (.some sub))
      = .field a n args (.some (addTypenameSet s (resolveFieldType s pt n) sub)) := rfl

theorem transformSel_inlineFragment (s : Schema) (pt : String) (tc : String)
    (sub : SelectionSet) :
    transformSel s pt (.inlineFragment tc sub)
      = .inlineFragment tc (addTypenameSet s tc sub) := rfl

theorem hasTypename_appendTypename :
    (ss : SelectionSet) → hasTypename (appendTypename ss) = true
  | .nil => rfl
  | .cons a rest => by
      cases a <;> simp [appendTypename, hasTypename, hasTypename_appendTypename rest]

theorem toList_appendTypename :
    (ss : SelectionSet) → toList (appendTypename ss) = toList ss ++ [typenameField]
  | .nil => rfl
  | .cons a rest => by
      simp [appendTypename, toList, toList_appendTypename rest]

theorem transformSet_appendTypename (s : Schema) (t : String) :
    (ss : SelectionSet) →
      transformSet s t (appendTypename ss) = appendTypename (transformSet s t ss)
  | .nil => rfl
  | .cons a rest => by
      simp [appendTypename, transformSet, transformSet_appendTypename s t rest]

theorem toList_transformSet (s : Schema) (t : String) :
    (ss : SelectionSet) →
      toList (transformSet s t ss) = (toList ss).map (transformSel s t)
  | .nil => rfl
  | .cons a rest => by
      simp [transformSet, toList, toList_transformSet s t rest]

theorem hasTypename_transformSet (s : Schema) (t : String) :
    (ss : SelectionSet) → hasTypename (transformSet s t ss) = hasTypename ss
  | .nil => rfl
  | .cons a rest => by
      cases a with
      | field al n args sub =>
          cases sub <;>
            simp [transformSet, transformSel, hasTypename,
              hasTypename_transformSet s t rest]
      | fragmentSpread n =>
          simp [transformSet, transformSel, hasTypename,
            hasTypename_transformSet s t rest]
      | inlineFragment tc sub =>
          simp [transformSet, transformSel, hasTypename,
            hasTypename_transformSet s t rest]

theorem transformSet_leafOnly (s : Schema) (t : String) :
    (ss : SelectionSet) → leafOnly ss = true → transformSet s t ss = ss
  | .nil, _ => rfl
  | .cons (.field a n args .none) rest, h => by
      simp [transformSet, transformSel,
        transformSet_leafOnly s t rest (by simpa [leafOnly] using h)]
  | .cons (.field a n args (.some sub)) rest, h => by simp [leafOnly] at h
  | .cons (.fragmentSpread n) rest, h => by simp [leafOnly] at h
  | .cons (.inlineFragment tc sub) rest, h => by simp [leafOnly] at h

theorem addTypenameSet_eq_append (s : Schema) (t : String) (ss : SelectionSet)
    (h : (isAbstract s t && !hasTypename ss) = true) :
    addTypenameSet s t ss = appendTypename (transformSet s t ss) := by
  unfold addTypenameSet injectIf
  rw [hasTypename_transformSet, h, if_pos rfl]

theorem addTypenameSet_eq_self (s : Schema) (t : String) (ss : SelectionSet)
    (h : (isAbstract s t && !hasTypename ss) = false) :
    addTypenameSet s t ss = transformSet s t ss := by
  unfold addTypenameSet injectIf
  rw [hasTypename_transformSet, h]
  simp

theorem addTypenameSet_idem_of (s : Schema) (t : String) (ss : SelectionSet)
    (h : transformSet s t (transformSet s t ss) = transformSet s t ss) :
    addTypenameSet s t (addTypenameSet s t ss) = addTypenameSet s t ss := by
  cases hc : isAbstract s t && !hasTypename ss with
  | true =>
      rw [addTypenameSet_eq_append s t ss hc]
      rw [addTypenameSet_eq_self s t (appendTypename (transformSet s t ss))
        (by rw [hasTypename_appendTypename]; simp)]
      rw [transformSet_appendTypename, h]
  | false =>
      rw [addTypenameSet_eq_self s t ss hc]
      rw [addTypenameSet_eq_self s t (transformSet s t ss)
        (by rw [hasTypename_transformSet]; exact hc)]
      exact h

mutual
theorem transformSel_idem (s : Schema) (pt : String) :
    (sel : Selection) → transformSel s pt (transformSel s pt sel) = transformSel s pt sel
  | .field a n args .none => rfl
  | .field a n args (.some sub) => by
      rw [transformSel_field_some, transformSel_field_some,
        addTypenameSet_idem_of s (resolveFieldType s pt n) sub
          (transformSet_idem s (resolveFieldType s pt n) sub)]
  | .fragmentSpread n => rfl
  | .inlineFragment tc sub => by
      rw [transformSel_inlineFragment, transformSel_inlineFragment,
        addTypenameSet_idem_of s tc sub (transformSet_idem s tc sub)]

theorem transformSet_idem (s : Schema) (pt : String) :
    (ss : SelectionSet) → transformSet s pt (transformSet s pt ss) = transformSet s pt ss
  | .nil => rfl
  | .cons a rest => by
      simp only [transformSet]
      rw [transformSel_idem s pt a, transformSet_idem s pt rest]
end

theorem addTypenameSet_idem (s : Schema) (t : String) (ss : SelectionSet) :
    addTypenameSet s t (addTypenameSet s t ss) = addTypenameSet s t ss :=
  addTypenameSet_idem_of s t ss (transformSet_idem s t ss)

theorem transformDoc_idem (s : Schema) (d : CollectedDocument) :
    transformDoc s (transformDoc s d) = transformDoc s d := by
  simp [transformDoc, addTypenameSet_idem]

theorem discOkSel_typenameField (s : Schema) (pt : String) :
    discOkSel s pt typenameField = true := rfl

theorem discOkSels_appendTypename (s : Schema) (pt : String) :
    (ss : SelectionSet) →
      discOkSels s pt (appendTypename ss) = discOkSels s pt ss
  | .nil => by simp [appendTypename, discOkSels, discOkSel_typenameField]
  | .cons a rest => by
      simp [appendTypename, discOkSels, discOkSels_appendTypename s pt rest]

theorem hasTypename_addTypenameSet (s : Schema) (t : String) (ss : SelectionSet)
    (hA : isAbstract s t = true) :
    hasTypename (addTypenameSet s t ss) = true := by
  cases hH : hasTypename ss with
  | true =>
      rw [addTypenameSet_eq_self s t ss (by simp [hH]), hasTypename_transformSet]
      exact hH
  | false =>
      rw [addTypenameSet_eq_append s t ss (by simp [hA, hH])]
      exact hasTypename_appendTypename _

theorem addTypenameSet_boundary (s : Schema) (t : String) (ss : SelectionSet) :
    (!(isAbstract s t && hasTypedInline (addTypenameSet s t ss))
      || hasTypename (addTypenameSet s t ss)) = true := by
  cases hA : isAbstract s t with
  | false => simp [hA]
  | true => simp [hasTypename_addTypenameSet s t ss hA]

theorem discOkSels_addTypenameSet_of (s : Schema) (t : String) (ss : SelectionSet)
    (h : discOkSels s t (transformSet s t ss) = true) :
    discOkSels s t (addTypenameSet s t ss) = true := by
  cases hc : isAbstract s t && !hasTypename ss with
  | true =>
      rw [addTypenameSet_eq_append s t ss hc, discOkSels_appendTypename]
      exact h
  | false =>
      rw [addTypenameSet_eq_self s t ss hc]
      exact h

mutual
theorem discOkSel_transformSel (s : Schema) (pt : String) :
    (sel : Selection) → discOkSel s pt (transformSel s pt sel) = true
  | .field a n args .none => rfl
  | .field a n args (.some sub) => by
      rw [transformSel_field_some]
      have h1 := addTypenameSet_boundary s (resolveFieldType s pt n) sub
      have h2 := discOkSels_addTypenameSet_of s (resolveFieldType s pt n) sub
        (discOkSels_transformSet s (resolveFieldType s pt n) sub)
      show ((!(isAbstract s (resolveFieldType s pt n)
          && hasTypedInline (addTypenameSet s (resolveFieldType s pt n) sub))
          || hasTypename (addTypenameSet s (resolveFieldType s pt n) sub))
        && discOkSels s (resolveFieldType s pt n)
            (addTypenameSet s (resolveFieldType s pt n) sub)) = true
      rw [h1, h2]
      rfl
  | .fragmentSpread n => rfl
  | .inlineFragment tc sub => by
      rw [transformSel_inlineFragment]
      have h1 := addTypenameSet_boundary s tc sub
      have h2 := discOkSels_addTypenameSet_of s tc sub
        (discOkSels_transformSet s tc sub)
      show ((!(isAbstract s tc && hasTypedInline (addTypenameSet s tc sub))
          || hasTypename (addTypenameSet s tc sub))
        && discOkSels s tc (addTypenameSet s tc sub)) = true
      rw [h1, h2]
      rfl

theorem discOkSels_transformSet (s : Schema) (pt : String) :
    (ss : SelectionSet) → discOkSels s pt (transformSet s pt ss) = true
  | .nil => rfl
  | .cons a rest => by
      simp only [transformSet, discOkSels]
      rw [discOkSel_transformSel s pt a, discOkSels_transformSet s pt rest]
      rfl
end

theorem discOkSet_addTypenameSet (s : Schema) (t : String) (ss : SelectionSet) :
    discOkSet s t (addTypenameSet s t ss) = true := by
  unfold discOkSet
  rw [addTypenameSet_boundary s t ss,
    discOkSels_addTypenameSet_of s t ss (discOkSels_transformSet s t ss)]
  rfl

theorem isAbstract_swapIU (s : Schema) (t : String) :
    isAbstract (swapIU s) t = isAbstract s t := by
  unfold isAbstract swapIU
  cases h : s.kindOf t with
  | none => simp [h]
  | some k => cases k <;> simp [h]

theorem resolveFieldType_swapIU (s : Schema) (pt : String) (n : String) :
    resolveFieldType (swapIU s) pt n = resolveFieldType s pt n := rfl

theorem injectIf_swapIU (s : Schema) (t : String) (ss : SelectionSet) :
    injectIf (swapIU s) t ss = injectIf s t ss := by
  unfold injectIf
  rw [isAbstract_swapIU]

mutual
theorem transformSel_swapIU (s : Schema) (pt : String) :
    (sel : Selection) → transformSel (swapIU s) pt sel = transformSel s pt sel
  | .field a n args .none => rfl
  | .field a n args (.some sub) => by
      rw [transformSel_field_some, transformSel_field_some]
      show Selection.field a n args
          (.some (addTypenameSet (swapIU s) (resolveFieldType s pt n) sub))
        = Selection.field a n args
          (.some (addTypenameSet s (resolveFieldType s pt n) sub))
      unfold addTypenameSet
      rw [injectIf_swapIU, transformSet_swapIU s (resolveFieldType s pt n) sub]
  | .fragmentSpread n => rfl
  | .inlineFragment tc sub => by
      rw [transformSel_inlineFragment, transformSel_inlineFragment]
      unfold addTypenameSet
      rw [injectIf_swapIU, transformSet_swapIU s tc sub]

theorem transformSet_swapIU (s : Schema) (pt : String) :
    (ss : SelectionSet) → transformSet (swapIU s) pt ss = transformSet s pt ss
  | .nil => rfl
  | .cons a rest => by
      simp only [transformSet]
      rw [transformSel_swapIU s pt a, transformSet_swapIU s pt rest]
end

theorem addTypenameSet_swapIU (s : Schema) (t : String) (ss : SelectionSet) :
    addTypenameSet (swapIU s) t ss = addTypenameSet s t ss := by
  unfold addTypenameSet
  rw [injectIf_swapIU, transformSet_swapIU]

theorem transformDoc_swapIU (s : Schema) (d : CollectedDocument) :
    transformDoc (swapIU s) d = transformDoc s d := by
  unfold transformDoc
  rw [addTypenameSet_swapIU]

/-- A named copy of the friends selection set used for concrete witnesses:
inline fragments on Cat and on Ghost, no discriminator. -/
def catGhostSet : SelectionSet := .cons catFragment (.cons ghostFragment .nil)

/-- The same selection set already carrying a trailing discriminator. -/
def catGhostTypenameSet : SelectionSet :=
  .cons catFragment (.cons ghostFragment (.cons typenameField .nil))

/-- The body of the inline fragment on Cat: a single leaf field. -/
def catBody : SelectionSet :=
  .cons (.field Option.none "id" [] SubSelection.none) .nil

/-- C1: for a selection set whose resolved parent type is an interface, with
no discriminator among its direct children, the pass appends the
discriminator as the final child after every existing selection (in
particular after all inline fragments); the body of an inline fragment on
an implementing object type consisting of leaf fields is left unchanged;
and on the recorded interface-query document the pipeline produces exactly
the expected printed text. -/
theorem interface_set_gets_typename_appended (s : Schema) (t tc : String)
    (ss sub : SelectionSet)
    (hk : s.kindOf t = Option.some TypeKind.interface)
    (hn : hasTypename ss = false)
    (hobj : s.kindOf tc = Option.some TypeKind.object)
    (hleaf : leafOnly sub = true) :
    toList (addTypenameSet s t ss)
      = (toList ss).map (transformSel s t) ++ [typenameField]
  ∧ transformSel s t (.inlineFragment tc sub) = .inlineFragment tc sub
  ∧ printDoc (transformDoc testSchema friendsDoc) = friendsExpected := by
  refine ⟨?_, ?_, by decide⟩
  · have hA : isAbstract s t = true := by simp [isAbstract, hk]
    rw [addTypenameSet_eq_append s t ss (by simp [hA, hn]),
      toList_appendTypename, toList_transformSet]
  · rw [transformSel_inlineFragment,
      addTypenameSet_eq_self s tc sub (by simp [isAbstract, hobj]),
      transformSet_leafOnly s tc sub hleaf]

/-- C2: the Abstract-Type Disambiguation Pass is idempotent - running it
twice on a document, or on the whole store, is the same as running it
once; a selection set that already contains the discriminator gets no
injection at that boundary (no duplicate); and the concrete document that
already carries the discriminator is returned entirely unchanged. -/
theorem typename_pass_idempotent (s : Schema) (d : CollectedDocument)
    (docs : List CollectedDocument) (t : String) (ss : SelectionSet)
    (h : hasTypename ss = true) :
    transformDoc s (transformDoc s d) = transformDoc s d
  ∧ (typenamePass s (typenamePass s docs).1).1 = (typenamePass s docs).1
  ∧ addTypenameSet s t ss = transformSet s t ss
  ∧ transformDoc testSchema friendsDocWithTypename = friendsDocWithTypename := by
  refine ⟨transformDoc_idem s d, ?_, ?_, by decide⟩
  · show (docs.map (transformDoc s)).map (transformDoc s) = docs.map (transformDoc s)
    rw [List.map_map]
    exact List.map_congr_left (fun a _ => transformDoc_idem s a)
  · exact addTypenameSet_eq_self s t ss (by simp [h])

/-- C3: the pass never injects the discriminator at a boundary whose
resolved type is an object type - the injection rule is the identity
there, a field whose resolved return type is an object gets only its
children rewritten, an inline fragment narrowing to an object type gets
only its body rewritten, and the recorded nested-interface document prints
with the discriminator at the inner interface set only. -/
theorem no_typename_on_object_sets (s : Schema) (t pt tc n : String)
    (a : Option String) (args : List (String × String))
    (ss sub : SelectionSet)
    (hobj : s.kindOf t = Option.some TypeKind.object)
    (hf : s.kindOf (resolveFieldType s pt n) = Option.some TypeKind.object)
    (hc : s.kindOf tc = Option.some TypeKind.object) :
    injectIf s t ss = ss
  ∧ transformSel s pt (.field a n args (.some sub))
      = .field a n args (.some (transformSet s (resolveFieldType s pt n) sub))
  ∧ transformSel s pt (.inlineFragment tc sub)
      = .inlineFragment tc (transformSet s tc sub)
  ∧ printDoc (transformDoc testSchema usersDoc) = usersExpected := by
  refine ⟨?_, ?_, ?_, by decide⟩
  · simp [injectIf, isAbstract, hobj]
  · rw [transformSel_field_some,
      addTypenameSet_eq_self s (resolveFieldType s pt n) sub
        (by simp [isAbstract, hf])]
  · rw [transformSel_inlineFragment,
      addTypenameSet_eq_self s tc sub (by simp [isAbstract, hc])]

/-- C4: after the pass, every interface or union boundary at every nesting
depth that contains a typed inline fragment selects the discriminator -
the depth-independence checker holds on any transformed selection set and
on any transformed document, so injection at one level never exempts a
deeper boundary. -/
theorem typename_at_every_abstract_boundary (s : Schema) (t : String)
    (ss : SelectionSet) (d : CollectedDocument) :
    discOkSet s t (addTypenameSet s t ss) = true
  ∧ discOkSet s (transformDoc s d).rootType (transformDoc s d).selections = true := by
  refine ⟨discOkSet_addTypenameSet s t ss, ?_⟩
  simpa [transformDoc] using discOkSet_addTypenameSet s d.rootType d.selections

theorem runPasses_no_fatal (s : Schema) :
    (passes : List Pass) → (docs : List CollectedDocument) →
    (∀ q ∈ passes, ∀ ds, ((q s ds).2.any Diagnostic.isFatal) = false) →
    runPasses s passes docs = (applyAll s passes docs, collectAll s passes docs)
  | [], _, _ => rfl
  | q :: qs, docs, h => by
      have hq := h q (List.mem_cons_self q qs) docs
      simp only [runPasses, applyAll, collectAll, hq, Bool.false_eq_true,
        if_false]
      rw [runPasses_no_fatal s qs (q s docs).1
        (fun r hr ds => h r (List.mem_cons_of_mem q hr) ds)]

/-- C5: the Pass Runner appends each returned diagnostics list to the
aggregate in pass order; a pass whose diagnostics contain a fatal one
makes the runner return that aggregate at once, independently of whatever
passes follow; and when every pass of the list only ever returns advisory
diagnostics, all passes are applied in order and the aggregate is the
concatenation of their diagnostics in pass order. -/
theorem runner_fatal_halts_advisory_continues (s : Schema) (p : Pass)
    (rest rest2 passes : List Pass) (docs : List CollectedDocument)
    (hfat : (p s docs).2.any Diagnostic.isFatal = true)
    (hadv : ∀ q ∈ passes, ∀ ds, ((q s ds).2.any Diagnostic.isFatal) = false) :
    runPasses s (p :: rest) docs = p s docs
  ∧ runPasses s (p :: rest) docs = runPasses s (p :: rest2) docs
  ∧ runPasses s passes docs = (applyAll s passes docs, collectAll s passes docs) := by
  have h1 : runPasses s (p :: rest) docs = p s docs := by
    simp only [runPasses, hfat, if_true]
  have h2 : runPasses s (p :: rest2) docs = p s docs := by
    simp only [runPasses, hfat, if_true]
  exact ⟨h1, by rw [h1, h2], runPasses_no_fatal s passes docs hadv⟩

/-- C6: injection is local - the injection rule at one boundary appends
exactly one field at the end and leaves every pre-existing selection
(hence every sibling subtree) untouched and in the original order; the
walk rewrites the children of a set element-wise in document order; and
rewriting below a set never changes whether the discriminator is among
the direct children of that set, so no boundary above the injection point
is affected. -/
theorem typename_injection_is_local (s : Schema) (t : String) (ss : SelectionSet)
    (h : (isAbstract s t && !hasTypename ss) = true) :
    toList (injectIf s t ss) = toList ss ++ [typenameField]
  ∧ toList (transformSet s t ss) = (toList ss).map (transformSel s t)
  ∧ hasTypename (transformSet s t ss) = hasTypename ss := by
  refine ⟨?_, toList_transformSet s t ss, hasTypename_transformSet s t ss⟩
  unfold injectIf
  rw [if_pos h, toList_appendTypename]

/-- C7: the pass does not distinguish interface from union - interchanging
the two kinds on every type of the schema leaves the walk, the boundary
action and the per-document pass unchanged, and the recorded union-query
document prints with the discriminator appended exactly as the interface
case does. -/
theorem union_treated_like_interface (s : Schema) (t : String)
    (ss : SelectionSet) (d : CollectedDocument) :
    transformSet (swapIU s) t ss = transformSet s t ss
  ∧ addTypenameSet (swapIU s) t ss = addTypenameSet s t ss
  ∧ transformDoc (swapIU s) d = transformDoc s d
  ∧ printDoc (transformDoc testSchema entitiesDoc) = entitiesExpected :=
  ⟨transformSet_swapIU s t ss, addTypenameSet_swapIU s t ss,
    transformDoc_swapIU s d, by decide⟩

/-- C8: the pipeline is deterministic - two runs of the runner on equal
input stores under the same pass list return equal results, and printing
the two transformed stores yields byte-for-byte identical text. -/
theorem pipeline_print_deterministic (s : Schema) (pl : List Pass)
    (d1 d2 : List CollectedDocument) (h : d1 = d2) :
    printStore (runPasses s pl d1).1 = printStore (runPasses s pl d2).1
  ∧ runPasses s pl d1 = runPasses s pl d2 := by
  subst h
  exact ⟨rfl, rfl⟩

/-- C9: the pipeline preserves the set of top-level documents - running the
constant pass list neither creates nor deletes documents and reassigns no
document name or kind, and the disambiguation pass also keeps every root
type and source-file identity; only selection sets change. -/
theorem pipeline_preserves_document_identity (s : Schema)
    (docs : List CollectedDocument) :
    ((runPipeline s docs).1).map (fun d => (d.name, d.kind))
      = docs.map (fun d => (d.name, d.kind))
  ∧ ((runPipeline s docs).1).length = docs.length
  ∧ ((typenamePass s docs).1).map
      (fun d => (d.name, d.kind, d.rootType, d.sourceFile))
      = docs.map (fun d => (d.name, d.kind, d.rootType, d.sourceFile)) := by
  have hrun : (runPipeline s docs).1 = docs.map (transformDoc s) := by
    simp [runPipeline, pipelinePasses, runPasses, typenamePass]
  refine ⟨?_, ?_, ?_⟩
  · rw [hrun, List.map_map]
    exact List.map_congr_left (fun a _ => rfl)
  · rw [hrun, List.length_map]
  · show (docs.map (transformDoc s)).map _ = _
    rw [List.map_map]
    exact List.map_congr_left (fun a _ => rfl)

/-- C10: the discriminator the pass injects is the field literally named
__typename, with no alias, no arguments and no nested selection set, and
the very same field is appended whether the boundary type is an interface
or a union. -/
theorem discriminator_is_literal_typename (s : Schema) (t : String)
    (ss : SelectionSet)
    (hk : s.kindOf t = Option.some TypeKind.interface
        ∨ s.kindOf t = Option.some TypeKind.union)
    (hn : hasTypename ss = false) :
    toList (addTypenameSet s t ss)
      = (toList ss).map (transformSel s t)
        ++ [Selection.field Option.none "__typename" [] SubSelection.none] := by
  have hA : isAbstract s t = true := by
    cases hk with
    | inl h => simp [isAbstract, h]
    | inr h => simp [isAbstract, h]
  rw [addTypenameSet_eq_append s t ss (by simp [hA, hn]),
    toList_appendTypename, toList_transformSet]
  rfl

/-- An advisory diagnostic as reported for a schema-document mismatch. -/
def advisoryDiag : Diagnostic where
  severity := Severity.advisory
  message := "unresolvable field name"
  documentName := "Friends"
  locationHint := "friends"

/-- A fatal diagnostic as reported for a missing fragment definition. -/
def fatalDiag : Diagnostic where
  severity := Severity.fatal
  message := "missing fragment definition"
  documentName := "Friends"
  locationHint := "spread"

/-- A pass that reports one advisory diagnostic and changes nothing. -/
def advisoryPass : Pass := fun _ docs => (docs, [advisoryDiag])

/-- A pass that reports one fatal diagnostic and changes nothing. -/
def fatalPass : Pass := fun _ docs => (docs, [fatalDiag])

/-- A pass that discards the whole store, used to observe that passes after
a fatal diagnostic are never invoked. -/
def clearPass : Pass := fun _ _ => ([], [])

theorem interface_set_gets_typename_appended_witness :
    toList (addTypenameSet testSchema "Friend" catGhostSet)
      = (toList catGhostSet).map (transformSel testSchema "Friend") ++ [typenameField]
  ∧ transformSel testSchema "Friend" (.inlineFragment "Cat" catBody)
      = .inlineFragment "Cat" catBody
  ∧ printDoc (transformDoc testSchema friendsDoc) = friendsExpected :=
  interface_set_gets_typename_appended testSchema "Friend" "Cat" catGhostSet
    catBody (by decide) (by decide) (by decide) (by decide)

theorem typename_pass_idempotent_witness :
    transformDoc testSchema (transformDoc testSchema friendsDoc)
      = transformDoc testSchema friendsDoc
  ∧ (typenamePass testSchema (typenamePass testSchema [friendsDoc]).1).1
      = (typenamePass testSchema [friendsDoc]).1
  ∧ addTypenameSet testSchema "Friend" catGhostTypenameSet
      = transformSet testSchema "Friend" catGhostTypenameSet
  ∧ transformDoc testSchema friendsDocWithTypename = friendsDocWithTypename :=
  typename_pass_idempotent testSchema friendsDoc [friendsDoc] "Friend"
    catGhostTypenameSet (by decide)

theorem no_typename_on_object_sets_witness :
    injectIf testSchema "User" catGhostSet = catGhostSet
  ∧ transformSel testSchema "Query"
      (.field Option.none "users" [("stringValue", "\"hello\"")] (.some catBody))
      = .field Option.none "users" [("stringValue", "\"hello\"")]
          (.some (transformSet testSchema
            (resolveFieldType testSchema "Query" "users") catBody))
  ∧ transformSel testSchema "Query" (.inlineFragment "Cat" catBody)
      = .inlineFragment "Cat" (transformSet testSchema "Cat" catBody)
  ∧ printDoc (transformDoc testSchema usersDoc) = usersExpected :=
  no_typename_on_object_sets testSchema "User" "Query" "Cat" "users"
    Option.none [("stringValue", "\"hello\"")] catGhostSet catBody
    (by decide) (by decide) (by decide)

theorem runner_fatal_halts_advisory_continues_witness :
    runPasses testSchema (fatalPass :: [clearPass]) [friendsDoc]
      = fatalPass testSchema [friendsDoc]
  ∧ runPasses testSchema (fatalPass :: [clearPass]) [friendsDoc]
      = runPasses testSchema (fatalPass :: []) [friendsDoc]
  ∧ runPasses testSchema [advisoryPass, typenamePass] [friendsDoc]
      = (applyAll testSchema [advisoryPass, typenamePass] [friendsDoc],
          collectAll testSchema [advisoryPass, typenamePass] [friendsDoc]) :=
  runner_fatal_halts_advisory_continues testSchema fatalPass [clearPass] []
    [advisoryPass, typenamePass] [friendsDoc] (by decide)
    (by
      intro q hq ds
      cases hq with
      | head => rfl
      | tail _ hq2 =>
          cases hq2 with
          | head => rfl
          | tail _ hq3 => cases hq3)

theorem typename_injection_is_local_witness :
    toList (injectIf testSchema "Friend" catGhostSet)
      = toList catGhostSet ++ [typenameField]
  ∧ toList (transformSet testSchema "Friend" catGhostSet)
      = (toList catGhostSet).map (transformSel testSchema "Friend")
  ∧ hasTypename (transformSet testSchema "Friend" catGhostSet)
      = hasTypename catGhostSet :=
  typename_injection_is_local testSchema "Friend" catGhostSet (by decide)

theorem pipeline_print_deterministic_witness :
    printStore (runPasses testSchema pipelinePasses [friendsDoc]).1
      = printStore (runPasses testSchema pipelinePasses [friendsDoc]).1
  ∧ runPasses testSchema pipelinePasses [friendsDoc]
      = runPasses testSchema pipelinePasses [friendsDoc] :=
  pipeline_print_deterministic testSchema pipelinePasses [friendsDoc]
    [friendsDoc] rfl

theorem discriminator_is_literal_typename_witness :
    (toList (addTypenameSet testSchema "Friend" catGhostSet)
      = (toList catGhostSet).map (transformSel testSchema "Friend")
        ++ [Selection.field Option.none "__typename" [] SubSelection.none])
  ∧ (toList (addTypenameSet testSchema "Entity" catGhostSet)
      = (toList catGhostSet).map (transformSel testSchema "Entity")
        ++ [Selection.field Option.none "__typename" [] SubSelection.none]) :=
  ⟨discriminator_is_literal_typename testSchema "Friend" catGhostSet
      (Or.inl (by decide)) (by decide),
    discriminator_is_literal_typename testSchema "Entity" catGhostSet
      (Or.inr (by decide)) (by decide)⟩
